import Mathlib

/-!
Verification of the quad-mesh repair engine of meshQuadQuasiStructured.cpp
(and the local smoothing loop of the companion smoothing translation unit).

The C++ data structures and operations are shallowly embedded:
* `size_t` indices become `Nat`; the sentinel `NO_ID = std::numeric_limits<size_t>::max()`
  becomes the literal `2^64 - 1`; the few places where `size_t` arithmetic can wrap
  are modelled with explicit `% 2^64`.
* out-of-bounds vector accesses (undefined behaviour in C++) are modelled with
  `List.getD` and a junk default; `std::vector::erase(end())` (also UB, reached only
  when `std::find` fails) is modelled by `List.erase`, which is a no-op in that case.
* geometric fields (`SVector3 p`, `MVertex*`) are irrelevant to every operation
  modelled here (they are only read by debug logging); the external-identity
  back-reference is kept as a `Nat` tag `ptr`.
* do-while traversal loops are modelled with an explicit fuel argument that is
  large enough for every terminating execution; fuel exhaustion models the C++
  infinite loop by truncation and is never reached in the configurations the
  theorems below talk about.
-/

set_option maxRecDepth 100000

namespace QQS

/-- Sentinel for absent indices, `std::numeric_limits<size_t>::max()` in the source. -/
def NO_ID : Nat := 2 ^ 64 - 1

/-- struct HalfEdge: indices of other half-edges and owning entities. -/
structure HalfEdge where
  prev : Nat
  next : Nat
  opposite : Nat
  vertex : Nat
  face : Nat
deriving DecidableEq, Repr

/-- struct Vertex of the half-edge mesh (position dropped: never read by the
operations modelled here; `ptr` is the external mesh-vertex identity). -/
structure HVertex where
  he : Nat
  isSingularity : Bool
  ptr : Nat
deriving DecidableEq, Repr

/-- struct Face of the half-edge mesh (`ptr` is the external quad identity). -/
structure HFace where
  he : Nat
  ptr : Nat
deriving DecidableEq, Repr

/-- struct MeshHalfEdges. -/
structure MeshHalfEdges where
  vertices : List HVertex
  hedges : List HalfEdge
  faces : List HFace
deriving DecidableEq, Repr

def hedgeJunk : HalfEdge := ⟨NO_ID, NO_ID, NO_ID, NO_ID, NO_ID⟩

def hvertexJunk : HVertex := ⟨NO_ID, false, NO_ID⟩

def hfaceJunk : HFace := ⟨NO_ID, NO_ID⟩

/-- Accessor `M.next(he)`. -/
def MeshHalfEdges.hnext (M : MeshHalfEdges) (he : Nat) : Nat :=
  (M.hedges.getD he hedgeJunk).next

/-- Accessor `M.prev(he)`. -/
def MeshHalfEdges.hprev (M : MeshHalfEdges) (he : Nat) : Nat :=
  (M.hedges.getD he hedgeJunk).prev

/-- Accessor `M.opposite(he)`. -/
def MeshHalfEdges.opp (M : MeshHalfEdges) (he : Nat) : Nat :=
  (M.hedges.getD he hedgeJunk).opposite

/-- Accessor `M.hedges[he].face`. -/
def MeshHalfEdges.hface (M : MeshHalfEdges) (he : Nat) : Nat :=
  (M.hedges.getD he hedgeJunk).face

/-- Accessor `M.vertex(he,1)`: the vertex at the tip of the arrow. -/
def MeshHalfEdges.vert1 (M : MeshHalfEdges) (he : Nat) : Nat :=
  (M.hedges.getD he hedgeJunk).vertex

/-- Accessor `M.vertex(he,0) = hedges[prev(he)].vertex`: the origin vertex. -/
def MeshHalfEdges.vert0 (M : MeshHalfEdges) (he : Nat) : Nat :=
  M.vert1 (M.hprev he)

/-- Accessor `M.vertices[v].isSingularity`. -/
def MeshHalfEdges.isSing (M : MeshHalfEdges) (v : Nat) : Bool :=
  (M.vertices.getD v hvertexJunk).isSingularity

/-! ## createMeshHalfEdges

The construction iterates over the quads; each quad contributes 4 vertices
(numbered on first encounter, `mv2new`) and 4 half-edges `he0+k` with
`next`/`prev` linked cyclically inside the quad.  Opposites are then assigned by
grouping the half-edges by their unordered endpoint pair: the C++ uses
`sort_unique_with_perm` plus a `new2old` table with two slots per unique pair,
failing when a third half-edge maps to an already-full pair.  The fold
`fillSlots` below performs exactly that two-slot bookkeeping, keyed directly by
the endpoint pair (the `uniques` indirection of the source only serves to give
each pair a dense index and does not change which half-edge lands in which
slot). -/

/-- An input quad: the 4 external vertex identities `getVertex(0..3)`. -/
structure Quad where
  v0 : Nat
  v1 : Nat
  v2 : Nat
  v3 : Nat
deriving DecidableEq, Repr

/-- Corner lookup `q->getVertex(k % 4)`. -/
def Quad.vert (q : Quad) (k : Nat) : Nat :=
  match k % 4 with
  | 0 => q.v0
  | 1 => q.v1
  | 2 => q.v2
  | _ => q.v3

def Quad.vertList (q : Quad) : List Nat := [q.v0, q.v1, q.v2, q.v3]

/-- External vertex identities in order of first encounter while iterating the
quads: this is the numbering the `mv2new` map assigns. -/
def buildIds (qs : List Quad) : List Nat :=
  (qs.flatMap Quad.vertList).foldl (fun acc v => if v ∈ acc then acc else acc ++ [v]) []

/-- Lookup in `mv2new`: internal index of external vertex `v`. -/
def vid (qs : List Quad) (v : Nat) : Nat := (buildIds qs).indexOf v

/-- Which quad owns half-edge `h` (creation order gives `h = 4*q + k`). -/
def hQuad (h : Nat) : Nat := h / 4

/-- Tip vertex of half-edge `h = 4*q+k`: internal index of corner `(k+1) % 4`. -/
def hTip (qs : List Quad) (h : Nat) : Nat :=
  vid qs ((qs.getD (h / 4) ⟨NO_ID, NO_ID, NO_ID, NO_ID⟩).vert ((h % 4 + 1) % 4))

/-- Index `next` of half-edge `h` inside its quad. -/
def nextIdx (h : Nat) : Nat := 4 * (h / 4) + (h % 4 + 1) % 4

/-- Index `prev` of half-edge `h` inside its quad. -/
def prevIdx (h : Nat) : Nat := 4 * (h / 4) + (h % 4 + 3) % 4

/-- Sorted endpoint pair of half-edge `h` (`vPairs[i]` of the source): endpoints
are the tip of `h` and the tip of `prev h`, i.e. the internal indices of quad
corners `(k+1)%4` and `k`. -/
def pairOf (qs : List Quad) (h : Nat) : Nat × Nat :=
  let v1 := hTip qs (prevIdx h)
  let v2 := hTip qs h
  if v2 < v1 then (v2, v1) else (v1, v2)

/-- Two-slot table per unordered edge: `new2old[ni][0]` and `new2old[ni][1]`. -/
abbrev Slots := Nat × Nat → Option Nat × Option Nat

/-- Insert half-edge `i` with pair `p`: fill slot 0, else slot 1, else fail
(the non-manifold-quad-mesh error of the source). -/
def insertHedge (s : Slots) (p : Nat × Nat) (i : Nat) : Option Slots :=
  match s p with
  | (none, _) => some (Function.update s p (some i, none))
  | (some a, none) => some (Function.update s p (some a, some i))
  | (some _, some _) => none

/-- Process half-edges `0, 1, ..., n-1` in creation order. -/
def fillSlots (P : Nat → Nat × Nat) : Nat → Option Slots
  | 0 => some fun _ => (none, none)
  | n + 1 => (fillSlots P n).bind fun s => insertHedge s (P n) n

/-- Opposite of half-edge `i` read back from the filled tables: pairs with both
slots filled link the two half-edges mutually, all others keep `NO_ID`. -/
def oppositeOf (s : Slots) (P : Nat → Nat × Nat) (i : Nat) : Nat :=
  match s (P i) with
  | (some a, some b) => if i = a then b else if i = b then a else NO_ID
  | _ => NO_ID

/-- createMeshHalfEdges: build the half-edge structure from a quad list, flagging
the vertices listed in `sings` as singularities; `none` models the nonzero
failure return (non-manifold input).  The unreachable defensive check
`ni >= new2old.size()` of the source is not modelled. -/
def createMeshHalfEdges (qs : List Quad) (sings : List Nat) : Option MeshHalfEdges :=
  match fillSlots (pairOf qs) (4 * qs.length) with
  | none => none
  | some s =>
    some
      { vertices :=
          ((buildIds qs).enum.map fun vi =>
            { he := ((List.range (4 * qs.length)).find? fun h => hTip qs h = vi.1).getD NO_ID
              isSingularity := vi.2 ∈ sings
              ptr := vi.2 })
        hedges :=
          ((List.range (4 * qs.length)).map fun h =>
            { prev := prevIdx h
              next := nextIdx h
              opposite := oppositeOf s (pairOf qs) h
              vertex := hTip qs h
              face := h / 4 })
        faces := ((List.range qs.length).map fun f => { he := 4 * f, ptr := f }) }

/-! ## Vertex one-ring walks

`vertexFaceValence` turns around the vertex with `opposite(next(he))`; on meeting
a boundary it restarts from the boundary half-edge — but, unlike its sibling
walkers `vertexFaces` / `vertexHalfEdges` which unroll with `opposite(prev(he))`,
its second pass steps with `opposite(next(he))` again (source lines 461-469).
Both variants are embedded verbatim. -/

/-- First pass of `vertexFaceValence`: returns the count and, when a boundary is
met, the boundary half-edge `next(he)` to restart from. -/
def vffFirst (M : MeshHalfEdges) (start : Nat) : Nat → Nat → Nat → Nat × Option Nat
  | 0, _, val => (val, none)
  | fuel + 1, he, val =>
    let cand := M.opp (M.hnext he)
    if cand = NO_ID then (val, some (M.hnext he))
    else if cand = start then (val + 1, none)
    else vffFirst M start fuel cand (val + 1)

/-- Second pass of `vertexFaceValence` (the source steps with `opposite(next)`,
not `opposite(prev)`). -/
def vffSecond (M : MeshHalfEdges) (start : Nat) : Nat → Nat → Nat → Nat
  | 0, _, val => val
  | fuel + 1, he, val =>
    let h := M.opp (M.hnext he)
    if h = start ∨ h = NO_ID then val + 1
    else vffSecond M start fuel h (val + 1)

/-- Query `MeshHalfEdges::vertexFaceValence(v, onBoundary)`: result is
`(valence, onBoundary)`. -/
def vertexFaceValence (M : MeshHalfEdges) (v : Nat) : Nat × Bool :=
  let start := (M.vertices.getD v hvertexJunk).he
  if start = NO_ID then (0, false)
  else
    match vffFirst M start (M.hedges.length + 1) start 0 with
    | (val, none) => (val, false)
    | (_, some hb) => (vffSecond M start (M.hedges.length + 1) hb 0, true)

/-- First pass of the buffer variant `vertexFaces(v, size_t faces[])`: collect
the face of each half-edge stepped to; discarded when a boundary is met. -/
def vflFirst (M : MeshHalfEdges) (start : Nat) :
    Nat → Nat → List Nat → List Nat ⊕ Nat
  | 0, _, acc => .inl acc
  | fuel + 1, he, acc =>
    let cand := M.opp (M.hnext he)
    if cand = NO_ID then .inr (M.hnext he)
    else if cand = start then .inl (acc ++ [M.hface cand])
    else vflFirst M start fuel cand (acc ++ [M.hface cand])

/-- Second pass of `vertexFaces`: record the face of the current half-edge, then
unroll with `opposite(prev(he))`. -/
def vflSecond (M : MeshHalfEdges) (start : Nat) : Nat → Nat → List Nat → List Nat
  | 0, _, acc => acc
  | fuel + 1, he, acc =>
    let acc1 := acc ++ [M.hface he]
    let h := M.opp (M.hprev he)
    if h = start ∨ h = NO_ID then acc1
    else vflSecond M start fuel h acc1

/-- The faces written into the caller-provided buffer by
`vertexFaces(v, size_t faces[])`, in order. -/
def vertexFacesList (M : MeshHalfEdges) (v : Nat) : List Nat :=
  let start := (M.vertices.getD v hvertexJunk).he
  match vflFirst M start (M.hedges.length + 1) start [] with
  | .inl fs => fs
  | .inr hb => vflSecond M start (M.hedges.length + 1) hb []

/-- Count `valenceInsideQuads`: `none` models the `abort()` taken when the walked face
count reaches the stack buffer size 24 (the C++ has in fact already written past
the 24-entry buffer by then — memory corruption that the abort message itself
mentions; the out-of-bounds writes themselves are not modellable and the whole
execution is represented by the abort). -/
def valenceInsideQuads (M : MeshHalfEdges) (quads : List Nat) (v : Nat) : Option Nat :=
  let fs := vertexFacesList M v
  if 24 ≤ fs.length then none
  else some (fs.filter (quads.contains ·)).length

/-- Count `valenceOutsideQuads`, same structure with the complementary count. -/
def valenceOutsideQuads (M : MeshHalfEdges) (quads : List Nat) (v : Nat) : Option Nat :=
  let fs := vertexFacesList M v
  if 24 ≤ fs.length then none
  else some (fs.filter (fun f => ¬ quads.contains f)).length

/-- Number of faces of `M` whose vertex cycle contains `v` — the true incident
count, used to state what `valenceInsideQuads` is claimed to return. -/
def incidentFaceCount (M : MeshHalfEdges) (v : Nat) : Nat :=
  ((List.range M.faces.length).filter fun f =>
    (M.hedges.filter fun e => e.face = f ∧ e.vertex = v) ≠ []).length

/-! ## FCavity -/

/-- FCavity state: the ordered boundary half-edges and the set of interior quads
(the `side` tags are recomputed by `updateSides`, not needed by the claims
below).  `quads` models the `unordered_set` as a duplicate-free list. -/
structure Cav where
  hes : List Nat
  quads : List Nat
deriving DecidableEq, Repr

/-- struct FlipInfo. -/
structure FlipInfo where
  he : Nat
  nq : Nat
  nvs : Nat × Nat × Nat × Nat
deriving DecidableEq, Repr

/-- One step of `orderedHalfEdgesFromStack`: push the current half-edge, look
for the first stack entry `he2 ≠ he` whose origin matches the tip of `he`;
failure returns the partially built list (the source wrote it in place). -/
def orderedWalk (M : MeshHalfEdges) (stack : List Nat) (he0 : Nat) :
    Nat → Nat → List Nat → Bool × List Nat
  | 0, _, acc => (false, acc)
  | fuel + 1, he, acc =>
    let acc1 := acc ++ [he]
    match stack.find? fun he2 => he2 ≠ he ∧ M.vert0 he2 = M.vert1 he with
    | none => (false, acc1)
    | some he2 => if he2 = he0 then (true, acc1) else orderedWalk M stack he0 fuel he2 acc1

/-- Loop builder `orderedHalfEdgesFromStack`: order the boundary half-edges into one loop
starting from the first stack entry; on failure the partial output is returned
(the source clears and then fills the output vector in place). -/
def orderedHalfEdgesFromStack (M : MeshHalfEdges) (stack : List Nat) : Bool × List Nat :=
  if stack.length < 3 then (false, [])
  else
    match stack with
    | [] => (false, [])
    | he0 :: _ => orderedWalk M stack he0 (stack.length + 1) he0 []

/-- Entry `hes[i]` of the cavity boundary (guarded by `i < hes.size()` at use sites). -/
def flipHe0op (cav : Cav) (i : Nat) : Nat := cav.hes.getD i NO_ID

/-- Half-edge `he0 = M.opposite(hes[i])`: half-edge of the candidate quad. -/
def flipHe0 (M : MeshHalfEdges) (cav : Cav) (i : Nat) : Nat := M.opp (flipHe0op cav i)

def flipHe1 (M : MeshHalfEdges) (cav : Cav) (i : Nat) : Nat := M.hnext (flipHe0 M cav i)

def flipHe2 (M : MeshHalfEdges) (cav : Cav) (i : Nat) : Nat := M.hnext (flipHe1 M cav i)

def flipHe3 (M : MeshHalfEdges) (cav : Cav) (i : Nat) : Nat := M.hnext (flipHe2 M cav i)

/-- Face `q_k` across edge `he_k` of the candidate quad, `NO_ID` on boundary. -/
def flipQ (M : MeshHalfEdges) (cav : Cav) (i : Nat) (k : Nat) : Nat :=
  let hek := if k = 1 then flipHe1 M cav i else if k = 2 then flipHe2 M cav i else flipHe3 M cav i
  let hop := M.opp hek
  if hop = NO_ID then NO_ID else M.hface hop

/-- Test whether `q_k` exists and is already inside the cavity. -/
def flipQin (M : MeshHalfEdges) (cav : Cav) (i : Nat) (k : Nat) : Bool :=
  flipQ M cav i k != NO_ID && cav.quads.contains (flipQ M cav i k)

/-- The closing-a-hole configuration of `growByFlip`: valid interior boundary
half-edge whose candidate quad has all three other adjacent quads inside. -/
def closingHoleConfig (M : MeshHalfEdges) (cav : Cav) (i : Nat) : Bool :=
  decide (i < cav.hes.length) && flipHe0 M cav i != NO_ID &&
    flipQin M cav i 1 && flipQin M cav i 2 && flipQin M cav i 3

/-- Index `(i + n - k) % n` computed in `size_t` arithmetic (wrap-around through
`2^64` exactly as the unsigned subtraction of the source). -/
def wrapIdx (i n k : Nat) : Nat := ((i + n + (2 ^ 64 - k)) % 2 ^ 64) % n

/-- Result of `growByFlip`: return value plus the cavity and info after the call. -/
structure GrowRes where
  ok : Bool
  cav : Cav
  info : FlipInfo
deriving DecidableEq, Repr

/-- State of `info` after the entry assignments `info.he = he0_op; info.nq = hedges[he0].face`. -/
def flipInfo1 (M : MeshHalfEdges) (cav : Cav) (i : Nat) (info : FlipInfo) : FlipInfo :=
  { info with he := flipHe0op cav i, nq := M.hface (flipHe0 M cav i) }

/-- Branch body of the minus-two-vertices-on-the-bdr configuration: reject when a removed boundary
vertex is a protected singularity, otherwise relocate one boundary entry and
erase the two absorbed ones. -/
def growMinus2v (M : MeshHalfEdges) (cav : Cav) (info1 : FlipInfo)
    (rejectNewSings : Bool) (nv1 nv2 setIdx setVal e1 e2 : Nat) : Option GrowRes :=
  if rejectNewSings && (M.isSing nv1 || M.isSing nv2) then some ⟨false, cav, info1⟩
  else
    some ⟨true, ⟨((cav.hes.set setIdx setVal).erase e1).erase e2, cav.quads.insert info1.nq⟩,
      { info1 with nvs := (NO_ID, NO_ID, NO_ID, NO_ID) }⟩

/-- Branch body of the closing-a-hole configuration: reject on singularity (the source tests the
same vertex `M.hedges[he0].vertex` four times, lines 970-973 — the caller
passes it for all of `nv0..nv3`), otherwise erase the four boundary entries and
rebuild the loop from the remaining stack. -/
def growClose (M : MeshHalfEdges) (cav : Cav) (info1 : FlipInfo)
    (rejectNewSings : Bool) (nv0 nv1 nv2 nv3 : Nat) (stack : List Nat) : Option GrowRes :=
  if rejectNewSings &&
      (M.isSing nv0 || M.isSing nv1 || M.isSing nv2 || M.isSing nv3) then
    some ⟨false, cav, info1⟩
  else
    let info2 := { info1 with nvs := (nv0, nv1, nv2, nv3) }
    match orderedHalfEdgesFromStack M stack with
    | (false, part) => some ⟨false, ⟨part, cav.quads⟩, { info2 with nq := NO_ID }⟩
    | (true, ordered) => some ⟨true, ⟨ordered, cav.quads.insert info1.nq⟩, info2⟩

/-- Branch body of the same-number-of-vertices-on-the-bdr configuration: reject when a non-manifold
boundary would be created (`valenceInsideQuads > 0` at the far vertex) or when
the absorbed vertex is a singularity; `none` models the `abort()` inside
`valenceInsideQuads`. -/
def growShift (M : MeshHalfEdges) (cav : Cav) (info1 : FlipInfo)
    (rejectNewSings : Bool) (nvCheck nvIn : Nat) (hs1 : List Nat) : Option GrowRes :=
  match valenceInsideQuads M cav.quads nvCheck with
  | none => none
  | some val =>
    if 0 < val then some ⟨false, cav, { info1 with nq := NO_ID }⟩
    else if rejectNewSings && M.isSing nvIn then some ⟨false, cav, { info1 with nq := NO_ID }⟩
    else
      some ⟨true, ⟨hs1, cav.quads.insert info1.nq⟩,
        { info1 with nvs := (NO_ID, NO_ID, NO_ID, NO_ID) }⟩

/-- Concave-corner-at-singularity test of the plus-two-vertices branch: when
`v` is a singularity with exactly 2 faces outside the cavity the flip is
rejected, otherwise continue with `k`; `none` models the `abort()` inside
`valenceOutsideQuads` (reached only when `v` is a singularity, matching the
short-circuit of the `&&` in the source). -/
def concaveSingCheck (M : MeshHalfEdges) (cav : Cav) (info1 : FlipInfo) (v : Nat)
    (k : Option GrowRes) : Option GrowRes :=
  if M.isSing v then
    match valenceOutsideQuads M cav.quads v with
    | none => none
    | some vo => if vo = 2 then some ⟨false, cav, info1⟩ else k
  else k

/-- Branch body of the plus-two-vertices-on-the-bdr configuration. -/
def growPlus2v (M : MeshHalfEdges) (cav : Cav) (info1 : FlipInfo)
    (rejectNewSings : Bool) (nv1 nv2 v0 v1 : Nat) (hs1 : List Nat) : Option GrowRes :=
  match valenceInsideQuads M cav.quads nv1 with
  | none => none
  | some val1 =>
    if 0 < val1 then some ⟨false, cav, { info1 with nq := NO_ID }⟩
    else
      match valenceInsideQuads M cav.quads nv2 with
      | none => none
      | some val2 =>
        if 0 < val2 then some ⟨false, cav, { info1 with nq := NO_ID }⟩
        else
          let success : Option GrowRes :=
            some ⟨true, ⟨hs1, cav.quads.insert info1.nq⟩, info1⟩
          if rejectNewSings then
            concaveSingCheck M cav info1 v0 (concaveSingCheck M cav info1 v1 success)
          else success

/-- Growth primitive `FCavity::growByFlip(i, info, rejectNewSings)`.  `none` models the process
`abort()` inside `valenceInsideQuads` / `valenceOutsideQuads` (valence ≥ 24).
Each configuration mirrors the source in order; the branch bodies are factored
into the `grow…` helpers above with their arguments (checked vertices, boundary
updates) computed here exactly as at the corresponding source lines. -/
def growByFlip (M : MeshHalfEdges) (cav : Cav) (i : Nat) (info : FlipInfo)
    (rejectNewSings : Bool) : Option GrowRes :=
  if cav.hes.length ≤ i then some ⟨false, cav, { info with nq := NO_ID }⟩
  else if flipHe0 M cav i = NO_ID then some ⟨false, cav, { info with nq := NO_ID }⟩
  else
    match flipQin M cav i 1, flipQin M cav i 2, flipQin M cav i 3 with
    | true, true, false =>
      growMinus2v M cav (flipInfo1 M cav i info) rejectNewSings
        (M.vert0 (flipHe1 M cav i)) (M.vert1 (flipHe1 M cav i))
        (wrapIdx i cav.hes.length 2) (flipHe3 M cav i)
        (flipHe0op cav i) (M.opp (flipHe1 M cav i))
    | true, false, true =>
      growMinus2v M cav (flipInfo1 M cav i info) rejectNewSings
        (M.vert0 (flipHe0op cav i)) (M.vert1 (flipHe0op cav i))
        (wrapIdx i cav.hes.length 1) (flipHe2 M cav i)
        (flipHe0op cav i) (M.opp (flipHe3 M cav i))
    | false, true, true =>
      growMinus2v M cav (flipInfo1 M cav i info) rejectNewSings
        (M.vert0 (flipHe3 M cav i)) (M.vert1 (flipHe3 M cav i))
        i (flipHe1 M cav i) (M.opp (flipHe2 M cav i)) (M.opp (flipHe3 M cav i))
    | true, true, true =>
      growClose M cav (flipInfo1 M cav i info) rejectNewSings
        (M.vert1 (flipHe0 M cav i)) (M.vert1 (flipHe0 M cav i))
        (M.vert1 (flipHe0 M cav i)) (M.vert1 (flipHe0 M cav i))
        ((((cav.hes.erase (flipHe0op cav i)).erase (M.opp (flipHe1 M cav i))).erase
          (M.opp (flipHe2 M cav i))).erase (M.opp (flipHe3 M cav i)))
    | true, false, false =>
      growShift M cav (flipInfo1 M cav i info) rejectNewSings
        (M.vert1 (flipHe2 M cav i)) (M.vert1 (flipHe0 M cav i))
        ((cav.hes.set (wrapIdx i cav.hes.length 1) (flipHe2 M cav i)).set i (flipHe3 M cav i))
    | false, false, true =>
      growShift M cav (flipInfo1 M cav i info) rejectNewSings
        (M.vert1 (flipHe1 M cav i)) (M.vert1 (flipHe0op cav i))
        ((cav.hes.set i (flipHe1 M cav i)).set ((i + 1) % cav.hes.length) (flipHe2 M cav i))
    | false, false, false =>
      growPlus2v M cav (flipInfo1 M cav i info) rejectNewSings
        (M.vert1 (flipHe1 M cav i)) (M.vert1 (flipHe2 M cav i))
        (M.vert0 (flipHe0 M cav i)) (M.vert1 (flipHe0 M cav i))
        ((cav.hes.set i (flipHe1 M cav i)).take (i + 1) ++ [flipHe2 M cav i, flipHe3 M cav i] ++
          ((cav.hes.set i (flipHe1 M cav i)).drop (i + 1)))
    | false, true, false => some ⟨false, cav, { flipInfo1 M cav i info with nq := NO_ID }⟩

/-! ### State discipline of the flip branches -/

theorem growMinus2v_state (M : MeshHalfEdges) (cav : Cav) (info1 : FlipInfo)
    (rs : Bool) (nv1 nv2 setIdx setVal e1 e2 : Nat) (r : GrowRes)
    (h : growMinus2v M cav info1 rs nv1 nv2 setIdx setVal e1 e2 = some r) :
    (r.ok = false → r.cav = cav) ∧
    (r.ok = true → r.cav.quads = cav.quads.insert info1.nq) := by
  unfold growMinus2v at h
  split at h <;> rw [Option.some.injEq] at h <;> subst h
  · exact ⟨fun _ => rfl, fun hok => by simp at hok⟩
  · exact ⟨fun hok => by simp at hok, fun _ => rfl⟩

theorem growClose_state (M : MeshHalfEdges) (cav : Cav) (info1 : FlipInfo)
    (rs : Bool) (nv0 nv1 nv2 nv3 : Nat) (stack : List Nat) (r : GrowRes)
    (h : growClose M cav info1 rs nv0 nv1 nv2 nv3 stack = some r) :
    r.ok = true → r.cav.quads = cav.quads.insert info1.nq := by
  unfold growClose at h
  split at h
  · rw [Option.some.injEq] at h
    subst h
    exact fun hok => by simp at hok
  · split at h <;> rw [Option.some.injEq] at h <;> subst h
    · exact fun hok => by simp at hok
    · exact fun _ => rfl

theorem growShift_state (M : MeshHalfEdges) (cav : Cav) (info1 : FlipInfo)
    (rs : Bool) (nvCheck nvIn : Nat) (hs1 : List Nat) (r : GrowRes)
    (h : growShift M cav info1 rs nvCheck nvIn hs1 = some r) :
    (r.ok = false → r.cav = cav) ∧
    (r.ok = true → r.cav.quads = cav.quads.insert info1.nq) := by
  unfold growShift at h
  split at h
  · exact Option.noConfusion h
  · split at h
    · rw [Option.some.injEq] at h
      subst h
      exact ⟨fun _ => rfl, fun hok => by simp at hok⟩
    · split at h <;> rw [Option.some.injEq] at h <;> subst h
      · exact ⟨fun _ => rfl, fun hok => by simp at hok⟩
      · exact ⟨fun hok => by simp at hok, fun _ => rfl⟩

theorem concaveSingCheck_state (M : MeshHalfEdges) (cav : Cav) (info1 : FlipInfo)
    (v : Nat) (k : Option GrowRes) (r : GrowRes)
    (h : concaveSingCheck M cav info1 v k = some r) :
    r = ⟨false, cav, info1⟩ ∨ k = some r := by
  unfold concaveSingCheck at h
  split at h
  · split at h
    · exact Option.noConfusion h
    · split at h
      · rw [Option.some.injEq] at h
        exact Or.inl h.symm
      · exact Or.inr h
  · exact Or.inr h

theorem growPlus2v_state (M : MeshHalfEdges) (cav : Cav) (info1 : FlipInfo)
    (rs : Bool) (nv1 nv2 v0 v1 : Nat) (hs1 : List Nat) (r : GrowRes)
    (h : growPlus2v M cav info1 rs nv1 nv2 v0 v1 hs1 = some r) :
    (r.ok = false → r.cav = cav) ∧
    (r.ok = true → r.cav.quads = cav.quads.insert info1.nq) := by
  unfold growPlus2v at h
  split at h
  · exact Option.noConfusion h
  · split at h
    · rw [Option.some.injEq] at h
      subst h
      exact ⟨fun _ => rfl, fun hok => by simp at hok⟩
    · split at h
      · exact Option.noConfusion h
      · split at h
        · rw [Option.some.injEq] at h
          subst h
          exact ⟨fun _ => rfl, fun hok => by simp at hok⟩
        · have hsucc : ∀ r2 : GrowRes,
              some (⟨true, ⟨hs1, cav.quads.insert info1.nq⟩, info1⟩ : GrowRes) = some r2 →
                (r2.ok = false → r2.cav = cav) ∧
                (r2.ok = true → r2.cav.quads = cav.quads.insert info1.nq) := by
            intro r2 h2
            rw [Option.some.injEq] at h2
            subst h2
            exact ⟨fun hok => by simp at hok, fun _ => rfl⟩
          split at h
          · rcases concaveSingCheck_state M cav info1 v0 _ r h with hr | hk
            · subst hr
              exact ⟨fun _ => rfl, fun hok => by simp at hok⟩
            · rcases concaveSingCheck_state M cav info1 v1 _ r hk with hr | hk2
              · subst hr
                exact ⟨fun _ => rfl, fun hok => by simp at hok⟩
              · exact hsucc r hk2
          · exact hsucc r h

/-- C4: any `growByFlip` call that returns false outside the closing-a-hole
configuration leaves the cavity (both `quads` and the ordered boundary `hes`)
untouched, and any call that returns true adds exactly the index of the absorbed quad,
namely `M.hedges[M.opposite(hes[i])].face` to `quads`.  `some r` excludes the
process-aborting executions inside the valence helpers. -/
theorem growByFlip_state (M : MeshHalfEdges) (cav : Cav) (i : Nat) (info : FlipInfo)
    (rs : Bool) (r : GrowRes) (h : growByFlip M cav i info rs = some r) :
    (r.ok = false → closingHoleConfig M cav i = false → r.cav = cav) ∧
    (r.ok = true → r.cav.quads = cav.quads.insert (M.hface (flipHe0 M cav i))) := by
  unfold growByFlip at h
  by_cases h1 : cav.hes.length ≤ i
  · rw [if_pos h1, Option.some.injEq] at h
    subst h
    exact ⟨fun _ _ => rfl, fun hok => by simp at hok⟩
  · rw [if_neg h1] at h
    by_cases h2 : flipHe0 M cav i = NO_ID
    · rw [if_pos h2, Option.some.injEq] at h
      subst h
      exact ⟨fun _ _ => rfl, fun hok => by simp at hok⟩
    · rw [if_neg h2] at h
      rcases hq1 : flipQin M cav i 1 with _ | _ <;>
        rcases hq2 : flipQin M cav i 2 with _ | _ <;>
          rcases hq3 : flipQin M cav i 3 with _ | _ <;>
            simp only [hq1, hq2, hq3] at h
      · -- false false false: plus two vertices
        obtain ⟨ha, hb⟩ := growPlus2v_state M cav _ rs _ _ _ _ _ r h
        exact ⟨fun hok _ => ha hok, hb⟩
      · -- false false true: shift
        obtain ⟨ha, hb⟩ := growShift_state M cav _ rs _ _ _ r h
        exact ⟨fun hok _ => ha hok, hb⟩
      · -- false true false: unsupported configuration
        rw [Option.some.injEq] at h
        subst h
        exact ⟨fun _ _ => rfl, fun hok => by simp at hok⟩
      · -- false true true: minus two vertices
        obtain ⟨ha, hb⟩ := growMinus2v_state M cav _ rs _ _ _ _ _ _ r h
        exact ⟨fun hok _ => ha hok, hb⟩
      · -- true false false: shift
        obtain ⟨ha, hb⟩ := growShift_state M cav _ rs _ _ _ r h
        exact ⟨fun hok _ => ha hok, hb⟩
      · -- true false true: minus two vertices
        obtain ⟨ha, hb⟩ := growMinus2v_state M cav _ rs _ _ _ _ _ _ r h
        exact ⟨fun hok _ => ha hok, hb⟩
      · -- true true false: minus two vertices
        obtain ⟨ha, hb⟩ := growMinus2v_state M cav _ rs _ _ _ _ _ _ r h
        exact ⟨fun hok _ => ha hok, hb⟩
      · -- true true true: the closing-a-hole configuration
        have hcc : closingHoleConfig M cav i = true := by
          unfold closingHoleConfig
          rw [hq1, hq2, hq3]
          simp only [Bool.and_true]
          rw [decide_eq_true (by omega : i < cav.hes.length)]
          simp [bne_iff_ne, h2]
        refine ⟨fun _ hch => absurd hcc (by rw [hch]; simp), ?_⟩
        exact growClose_state M cav _ rs _ _ _ _ _ r h

/-! ## Gardener -/

/-- Half-edges of face `f` in source traversal order: `he = faces[f].he` then
`next` until back to the start (`do … while`). -/
def cycleGo (M : MeshHalfEdges) (start : Nat) : Nat → Nat → List Nat
  | 0, _ => []
  | fuel + 1, he =>
    he :: (if M.hnext he = start then [] else cycleGo M start fuel (M.hnext he))

def faceCycle (M : MeshHalfEdges) (f : Nat) : List Nat :=
  cycleGo M ((M.faces.getD f hfaceJunk).he) (M.hedges.length + 1) ((M.faces.getD f hfaceJunk).he)

/-- Gardener constructor valence: `valence[v]` accumulated by walking every
face cycle and counting tips. -/
def gardenerValence (M : MeshHalfEdges) (v : Nat) : Nat :=
  ((List.range M.faces.length).map fun f =>
    ((faceCycle M f).filter fun h => M.vert1 h = v).length).sum

/-- Gardener constructor `vOnBoundary[v]`: some face half-edge without opposite
has `v` as tip or origin. -/
def vOnBoundaryOf (M : MeshHalfEdges) (v : Nat) : Bool :=
  ((List.range M.faces.length).flatMap fun f => faceCycle M f).any fun h =>
    M.opp h = NO_ID && (M.vert1 h = v || M.vert0 h = v)

/-- Array `valenceInCavity[v]` as filled by `setCavity`: tips counted over the cavity
face cycles of the cavity quads. -/
def valenceInCavity (M : MeshHalfEdges) (quads : List Nat) (v : Nat) : Nat :=
  (quads.map fun f => ((faceCycle M f).filter fun h => M.vert1 h = v).length).sum

/-- The per-cavity data `setCavity` computes (the fields of Gardener it
resets; `valenceInCavity` is kept as a function). -/
structure GardenerCavityData where
  valInCav : Nat → Nat
  sings : List Nat
  singsBdr : List Nat
  irregular : List Nat
  cavityTargetNbOfSides : Nat

/-- Setter `Gardener::setCavity`: `none` models the early `return false` on an empty
quad set or boundary.  `sort_unique(asings)` is modelled by `dedup` (the order
of the resulting set is immaterial to all observations made of it). -/
def setCavity (M : MeshHalfEdges) (valence : Nat → Nat) (vOnBoundary : Nat → Bool)
    (cav : Cav) : Option GardenerCavityData :=
  if cav.quads.length = 0 ∨ cav.hes.length = 0 then none
  else
    let tips := cav.quads.flatMap fun f => (faceCycle M f).map M.vert1
    let asings := (tips.filter fun v => M.isSing v).dedup
    let irregular := (tips.filter fun v =>
      ¬ M.isSing v ∧ ((vOnBoundary v ∧ valence v ≠ 2) ∨ (¬ vOnBoundary v ∧ valence v ≠ 4))).dedup
    let target : Nat :=
      if cav.quads.length = 3 then 3
      else if cav.quads.length = 4 ∨ cav.quads.length = 1 then 4
      else if cav.quads.length = 5 then 5
      else 0
    some
      { valInCav := valenceInCavity M cav.quads
        sings := asings.filter fun v => valenceInCavity M cav.quads v = valence v
        singsBdr := asings.filter fun v => valenceInCavity M cav.quads v ≠ valence v
        irregular := irregular
        cavityTargetNbOfSides := target }

/-- Walk of `Gardener::markNewQuad` over the half-edges of the new quad: increment
`valenceInCavity` at each tip; the `Bool` is true when the `abort()` branch
(`isSingularity` and the updated in-cavity valence equals the total valence) is
reached, at which point the C++ process terminates. -/
def markNewQuadGo (M : MeshHalfEdges) (valence : Nat → Nat) :
    List Nat → (Nat → Nat) → (Nat → Nat) × Bool
  | [], vic => (vic, false)
  | h :: rest, vic =>
    let v := M.vert1 h
    let vic1 := Function.update vic v (vic v + 1)
    if M.isSing v ∧ vic1 v = valence v then (vic1, true)
    else markNewQuadGo M valence rest vic1

/-- Update `Gardener::markNewQuad(nq)` (the `sings`/`singsBdr`/`irregular` insertions
do not feed back into the abort condition and are omitted). -/
def markNewQuad (M : MeshHalfEdges) (valence : Nat → Nat) (vic : Nat → Nat)
    (nq : Nat) : (Nat → Nat) × Bool :=
  markNewQuadGo M valence (faceCycle M nq) vic

/-! ## Characterisation of the opposite-assignment fold -/

/-- Half-edge indices below `n` carrying the unordered edge `p`. -/
def idxsWith (P : Nat → Nat × Nat) (p : Nat × Nat) (n : Nat) : List Nat :=
  (List.range n).filter fun h => P h = p

/-- The pair of slots a list of group members induces. -/
def slotsOf (l : List Nat) : Option Nat × Option Nat := (l[0]?, l[1]?)

theorem idxsWith_succ (P : Nat → Nat × Nat) (p : Nat × Nat) (n : Nat) :
    idxsWith P p (n + 1) =
      idxsWith P p n ++ if P n = p then [n] else [] := by
  unfold idxsWith
  rw [List.range_succ, List.filter_append]
  by_cases h : P n = p <;> simp [h]

theorem idxsWith_nodup (P : Nat → Nat × Nat) (p : Nat × Nat) (n : Nat) :
    (idxsWith P p n).Nodup :=
  List.Nodup.filter _ (List.nodup_range n)

theorem mem_idxsWith {P : Nat → Nat × Nat} {p : Nat × Nat} {n i : Nat} :
    i ∈ idxsWith P p n ↔ i < n ∧ P i = p := by
  unfold idxsWith
  simp

/-- Invariant of the two-slot fold: on success the slots of every pair hold exactly
the first two group members, and no group has more than two members; on failure
some edge is carried by at least three half-edges. -/
theorem fillSlots_spec (P : Nat → Nat × Nat) (n : Nat) :
    (fillSlots P n = none → ∃ p, 2 < (idxsWith P p n).length) ∧
    (∀ s, fillSlots P n = some s →
      (∀ p, s p = slotsOf (idxsWith P p n)) ∧
      (∀ p, (idxsWith P p n).length ≤ 2)) := by
  induction n with
  | zero =>
    constructor
    · intro h
      simp [fillSlots] at h
    · intro s hs
      simp only [fillSlots, Option.some.injEq] at hs
      subst hs
      constructor
      · intro p
        simp [idxsWith, slotsOf]
      · intro p
        simp [idxsWith]
  | succ n ih =>
    rcases ih with ⟨ihn, ihs⟩
    constructor
    · intro h
      simp only [fillSlots, Option.bind_eq_none] at h
      cases hfs : fillSlots P n with
      | none =>
        obtain ⟨p, hp⟩ := ihn hfs
        refine ⟨p, ?_⟩
        rw [idxsWith_succ]
        have := List.length_append (idxsWith P p n) (if P n = p then [n] else [])
        omega
      | some s =>
        have hins := h s hfs
        obtain ⟨hchar, hbound⟩ := ihs s hfs
        unfold insertHedge at hins
        rcases hsp : s (P n) with ⟨s0, s1⟩
        rw [hsp] at hins
        rcases s0 with _ | a
        · simp at hins
        · rcases s1 with _ | b
          · simp at hins
          · refine ⟨P n, ?_⟩
            have hc := hchar (P n)
            rw [hsp] at hc
            unfold slotsOf at hc
            simp only [Prod.mk.injEq] at hc
            have h1 : (idxsWith P (P n) n)[1]? = some b := hc.2.symm
            have hlen : 2 ≤ (idxsWith P (P n) n).length := by
              by_contra hcon
              push_neg at hcon
              rw [List.getElem?_eq_none (by omega)] at h1
              exact Option.noConfusion h1
            rw [idxsWith_succ, if_pos rfl, List.length_append, List.length_singleton]
            omega
    · intro s hs
      simp only [fillSlots, Option.bind_eq_some] at hs
      obtain ⟨s0, hfs, hins⟩ := hs
      obtain ⟨hchar, hbound⟩ := ihs s0 hfs
      unfold insertHedge at hins
      rcases hsp : s0 (P n) with ⟨c0, c1⟩
      rw [hsp] at hins
      have hc := hchar (P n)
      rw [hsp] at hc
      unfold slotsOf at hc
      simp only [Prod.mk.injEq] at hc
      have hc0 : (idxsWith P (P n) n)[0]? = c0 := hc.1.symm
      have hc1 : (idxsWith P (P n) n)[1]? = c1 := hc.2.symm
      rcases c0 with _ | a
      · -- slot 0 empty: the group was empty, new slots (some n, none)
        simp only [Option.some.injEq] at hins
        subst hins
        have hempty : idxsWith P (P n) n = [] := by
          cases hl : idxsWith P (P n) n with
          | nil => rfl
          | cons x xs =>
            rw [hl] at hc0
            simp at hc0
        constructor
        · intro p
          rw [idxsWith_succ]
          by_cases hp : P n = p
          · subst hp
            rw [hempty, Function.update_same]
            simp [slotsOf]
          · rw [Function.update_noteq (by exact fun hx => hp hx.symm) _ _, if_neg hp,
              List.append_nil]
            exact hchar p
        · intro p
          rw [idxsWith_succ]
          by_cases hp : P n = p
          · subst hp
            rw [hempty]
            simp
          · rw [if_neg hp, List.append_nil]
            exact hbound p
      · rcases c1 with _ | b
        · -- slot 1 empty: the group was [a], new slots (some a, some n)
          simp only [Option.some.injEq] at hins
          subst hins
          have hone : idxsWith P (P n) n = [a] := by
            have hlen1 : (idxsWith P (P n) n).length ≤ 1 := by
              by_contra hcon
              push_neg at hcon
              rw [List.getElem?_eq_getElem (by omega)] at hc1
              exact Option.noConfusion hc1
            cases hl : idxsWith P (P n) n with
            | nil =>
              rw [hl] at hc0
              simp at hc0
            | cons x xs =>
              rw [hl] at hc0 hlen1
              simp only [List.getElem?_cons_zero, Option.some.injEq] at hc0
              simp only [List.length_cons] at hlen1
              have : xs = [] := List.eq_nil_of_length_eq_zero (by omega)
              rw [hc0, this]
          constructor
          · intro p
            rw [idxsWith_succ]
            by_cases hp : P n = p
            · subst hp
              rw [hone, Function.update_same]
              simp [slotsOf]
            · rw [Function.update_noteq (by exact fun hx => hp hx.symm) _ _, if_neg hp,
                List.append_nil]
              exact hchar p
          · intro p
            rw [idxsWith_succ]
            by_cases hp : P n = p
            · subst hp
              rw [hone]
              simp
            · rw [if_neg hp, List.append_nil]
              exact hbound p
        · exact Option.noConfusion hins

theorem oppositeOf_eq_pair (s : Slots) (P : Nat → Nat × Nat) (i a b : Nat)
    (h : s (P i) = (some a, some b)) :
    oppositeOf s P i = if i = a then b else if i = b then a else NO_ID := by
  unfold oppositeOf
  rw [h]

theorem oppositeOf_eq_single (s : Slots) (P : Nat → Nat × Nat) (i a : Nat)
    (h : s (P i) = (some a, none)) : oppositeOf s P i = NO_ID := by
  unfold oppositeOf
  rw [h]

/-- On success, opposite assignment is an involution on paired half-edges. -/
theorem oppositeOf_invol (P : Nat → Nat × Nat) (n : Nat) (s : Slots)
    (hs : fillSlots P n = some s) (i : Nat) (hi : i < n)
    (hne : oppositeOf s P i ≠ NO_ID) :
    oppositeOf s P i < n ∧ oppositeOf s P (oppositeOf s P i) = i := by
  obtain ⟨hchar, hbound⟩ := (fillSlots_spec P n).2 s hs
  have hmem : i ∈ idxsWith P (P i) n := mem_idxsWith.2 ⟨hi, rfl⟩
  have hchar_i := hchar (P i)
  have hbound_i := hbound (P i)
  have hnd := idxsWith_nodup P (P i) n
  cases hl : idxsWith P (P i) n with
  | nil =>
    rw [hl] at hmem
    exact absurd hmem (List.not_mem_nil i)
  | cons a tl =>
    cases tl with
    | nil =>
      have hsi : s (P i) = (some a, none) := by rw [hchar_i, hl]; rfl
      rw [oppositeOf_eq_single s P i a hsi] at hne
      exact absurd rfl hne
    | cons b tl2 =>
      cases tl2 with
      | nil =>
        have hsi : s (P i) = (some a, some b) := by rw [hchar_i, hl]; rfl
        rw [hl] at hmem hnd
        simp only [List.mem_cons, List.mem_singleton, List.not_mem_nil, or_false] at hmem
        have hab : a ≠ b := by
          simp only [List.nodup_cons, List.mem_singleton] at hnd
          exact hnd.1
        have hb : b < n ∧ P b = P i := by
          have : b ∈ idxsWith P (P i) n := by rw [hl]; simp
          exact mem_idxsWith.1 this
        have ha : a < n ∧ P a = P i := by
          have : a ∈ idxsWith P (P i) n := by rw [hl]; simp
          exact mem_idxsWith.1 this
        have hsb : s (P b) = (some a, some b) := by rw [hb.2, hsi]
        have hsa : s (P a) = (some a, some b) := by rw [ha.2, hsi]
        rcases hmem with hia | hib
        · subst hia
          have hoi : oppositeOf s P i = b := by
            rw [oppositeOf_eq_pair s P i i b hsi, if_pos rfl]
          refine ⟨hoi ▸ hb.1, ?_⟩
          rw [hoi, oppositeOf_eq_pair s P b i b hsb,
            if_neg (fun hbi => hab hbi.symm), if_pos rfl]
        · subst hib
          have hoi : oppositeOf s P i = a := by
            rw [oppositeOf_eq_pair s P i a i hsi,
              if_neg (fun hia => hab hia.symm), if_pos rfl]
          refine ⟨hoi ▸ ha.1, ?_⟩
          rw [hoi, oppositeOf_eq_pair s P a a i hsa, if_pos rfl]
      | cons c tl3 =>
        rw [hl] at hbound_i
        simp at hbound_i

/-- Evaluation of `getD` on a mapped range. -/
theorem getD_range_map {α : Type} (f : Nat → α) (n i : Nat) (hi : i < n) (d : α) :
    ((List.range n).map f).getD i d = f i := by
  unfold List.getD
  rw [List.get?_eq_getElem?, List.getElem?_map, List.getElem?_range hi]
  rfl

theorem nextIdx_lt {h n : Nat} (hh : h < 4 * n) : nextIdx h < 4 * n := by
  unfold nextIdx
  omega

theorem prevIdx_lt {h n : Nat} (hh : h < 4 * n) : prevIdx h < 4 * n := by
  unfold prevIdx
  omega

theorem nextIdx_prevIdx (h : Nat) : nextIdx (prevIdx h) = h := by
  unfold nextIdx prevIdx
  omega

theorem prevIdx_nextIdx (h : Nat) : prevIdx (nextIdx h) = h := by
  unfold prevIdx nextIdx
  omega

/-- Destructuring a successful construction. -/
theorem createMeshHalfEdges_hedges (qs : List Quad) (sings : List Nat)
    (M : MeshHalfEdges) (h : createMeshHalfEdges qs sings = some M) :
    ∃ s, fillSlots (pairOf qs) (4 * qs.length) = some s ∧
      M.hedges = ((List.range (4 * qs.length)).map fun h =>
        { prev := prevIdx h
          next := nextIdx h
          opposite := oppositeOf s (pairOf qs) h
          vertex := hTip qs h
          face := h / 4 : HalfEdge }) := by
  unfold createMeshHalfEdges at h
  cases hfs : fillSlots (pairOf qs) (4 * qs.length) with
  | none =>
    rw [hfs] at h
    exact Option.noConfusion h
  | some s =>
    rw [hfs] at h
    refine ⟨s, rfl, ?_⟩
    cases h
    rfl

theorem createMeshHalfEdges_length (qs : List Quad) (sings : List Nat)
    (M : MeshHalfEdges) (h : createMeshHalfEdges qs sings = some M) :
    M.hedges.length = 4 * qs.length := by
  obtain ⟨s, _, hh⟩ := createMeshHalfEdges_hedges qs sings M h
  rw [hh, List.length_map, List.length_range]

theorem createMeshHalfEdges_next (qs : List Quad) (sings : List Nat)
    (M : MeshHalfEdges) (h : createMeshHalfEdges qs sings = some M)
    (he : Nat) (hhe : he < 4 * qs.length) : M.hnext he = nextIdx he := by
  obtain ⟨s, _, hh⟩ := createMeshHalfEdges_hedges qs sings M h
  unfold MeshHalfEdges.hnext
  rw [hh, getD_range_map _ _ _ hhe]

theorem createMeshHalfEdges_prev (qs : List Quad) (sings : List Nat)
    (M : MeshHalfEdges) (h : createMeshHalfEdges qs sings = some M)
    (he : Nat) (hhe : he < 4 * qs.length) : M.hprev he = prevIdx he := by
  obtain ⟨s, _, hh⟩ := createMeshHalfEdges_hedges qs sings M h
  unfold MeshHalfEdges.hprev
  rw [hh, getD_range_map _ _ _ hhe]

/-- C2: after a successful `createMeshHalfEdges`, every half-edge satisfies
`next(prev(he)) == he` and `prev(next(he)) == he`, and every half-edge with
`opposite(he) != NONE` satisfies `opposite(opposite(he)) == he`. -/
theorem halfedge_consistency (qs : List Quad) (sings : List Nat)
    (M : MeshHalfEdges) (h : createMeshHalfEdges qs sings = some M)
    (he : Nat) (hhe : he < M.hedges.length) :
    M.hnext (M.hprev he) = he ∧ M.hprev (M.hnext he) = he ∧
      (M.opp he ≠ NO_ID → M.opp (M.opp he) = he) := by
  obtain ⟨s, hfs, hh⟩ := createMeshHalfEdges_hedges qs sings M h
  have hlen := createMeshHalfEdges_length qs sings M h
  rw [hlen] at hhe
  have hopp : ∀ i, i < 4 * qs.length → M.opp i = oppositeOf s (pairOf qs) i := by
    intro i hi
    unfold MeshHalfEdges.opp
    rw [hh, getD_range_map _ _ _ hi]
  refine ⟨?_, ?_, ?_⟩
  · rw [createMeshHalfEdges_prev qs sings M h he hhe,
      createMeshHalfEdges_next qs sings M h (prevIdx he) (prevIdx_lt hhe),
      nextIdx_prevIdx]
  · rw [createMeshHalfEdges_next qs sings M h he hhe,
      createMeshHalfEdges_prev qs sings M h (nextIdx he) (nextIdx_lt hhe),
      prevIdx_nextIdx]
  · intro hne
    rw [hopp he hhe] at hne ⊢
    obtain ⟨hlt, hinv⟩ := oppositeOf_invol (pairOf qs) (4 * qs.length) s hfs he hhe hne
    rw [hopp _ hlt, hinv]

/-- Closed instance of `halfedge_consistency` at a concrete 2-quad input. -/
def twoQuads : List Quad := [⟨0, 1, 2, 3⟩, ⟨1, 4, 5, 2⟩]

def twoQuadsM : MeshHalfEdges := (createMeshHalfEdges twoQuads []).getD ⟨[], [], []⟩

theorem halfedge_consistency_witness :
    twoQuadsM.hnext (twoQuadsM.hprev 1) = 1 ∧ twoQuadsM.hprev (twoQuadsM.hnext 1) = 1 ∧
      (twoQuadsM.opp 1 ≠ NO_ID → twoQuadsM.opp (twoQuadsM.opp 1) = 1) :=
  halfedge_consistency twoQuads [] twoQuadsM (by decide) 1 (by decide)

/-- Closed instance of `growByFlip_state`: a rejected flip on the 2-quad mesh
(the opposite of the boundary half-edge does not exist) leaves the cavity unchanged. -/
def twoQuadsCav : Cav := ⟨[0, 4, 5, 6, 2, 3], [0, 1]⟩

theorem growByFlip_state_witness :
    (GrowRes.mk false twoQuadsCav ⟨NO_ID, NO_ID, (NO_ID, NO_ID, NO_ID, NO_ID)⟩).cav =
      twoQuadsCav :=
  (growByFlip_state twoQuadsM twoQuadsCav 0 ⟨NO_ID, NO_ID, (NO_ID, NO_ID, NO_ID, NO_ID)⟩
    true ⟨false, twoQuadsCav, ⟨NO_ID, NO_ID, (NO_ID, NO_ID, NO_ID, NO_ID)⟩⟩
    (by decide)).1 (by decide) (by decide)

/-- Number of half-edges (quad-edge uses) carrying the unordered edge `p`: a
quad contributes one use per local edge, so an edge shared by k quads is
carried by k half-edges (a degenerate quad repeating an edge contributes each
repetition). -/
def edgeUseCount (qs : List Quad) (p : Nat × Nat) : Nat :=
  (idxsWith (pairOf qs) p (4 * qs.length)).length

/-- C6: `createMeshHalfEdges` fails exactly on the inputs where some edge is
carried by more than 2 quad edges, and succeeds on all others. -/
theorem createMeshHalfEdges_failure_iff (qs : List Quad) (sings : List Nat) :
    createMeshHalfEdges qs sings = none ↔ ∃ p, 2 < edgeUseCount qs p := by
  constructor
  · intro h
    unfold createMeshHalfEdges at h
    cases hfs : fillSlots (pairOf qs) (4 * qs.length) with
    | none => exact (fillSlots_spec (pairOf qs) (4 * qs.length)).1 hfs
    | some s =>
      rw [hfs] at h
      exact Option.noConfusion h
  · rintro ⟨p, hp⟩
    unfold createMeshHalfEdges
    cases hfs : fillSlots (pairOf qs) (4 * qs.length) with
    | none => rfl
    | some s =>
      have := ((fillSlots_spec (pairOf qs) (4 * qs.length)).2 s hfs).2 p
      unfold edgeUseCount at hp
      omega

/-- C7: `setCavity` on a non-empty cavity (at least one quad and one boundary
half-edge, the guard of the source) derives `cavityTargetNbOfSides` from the
face count of the cavity: 3 faces → 3, 1 or 4 faces → 4, 5 faces → 5, anything
else → 0.  `cav.quads.Nodup` makes the list model of the `unordered_set` a
set, so `length` is the face count. -/
theorem setCavity_target (M : MeshHalfEdges) (valence : Nat → Nat)
    (vOnBoundary : Nat → Bool) (cav : Cav) (h1 : cav.quads ≠ []) (h2 : cav.hes ≠ [])
    (_h3 : cav.quads.Nodup) :
    (cav.quads.length = 3 →
      (setCavity M valence vOnBoundary cav).map (fun d => d.cavityTargetNbOfSides) = some 3) ∧
    (cav.quads.length = 1 ∨ cav.quads.length = 4 →
      (setCavity M valence vOnBoundary cav).map (fun d => d.cavityTargetNbOfSides) = some 4) ∧
    (cav.quads.length = 5 →
      (setCavity M valence vOnBoundary cav).map (fun d => d.cavityTargetNbOfSides) = some 5) ∧
    (cav.quads.length ≠ 1 ∧ cav.quads.length ≠ 3 ∧ cav.quads.length ≠ 4 ∧
        cav.quads.length ≠ 5 →
      (setCavity M valence vOnBoundary cav).map (fun d => d.cavityTargetNbOfSides) = some 0) := by
  have hg : ¬ (cav.quads.length = 0 ∨ cav.hes.length = 0) := by
    rw [List.length_eq_zero, List.length_eq_zero]
    tauto
  unfold setCavity
  rw [if_neg hg]
  refine ⟨?_, ?_, ?_, ?_⟩
  · intro hq
    rw [if_pos hq]
    rfl
  · rintro (hq | hq) <;> rw [if_neg (by omega), if_pos (by omega)] <;> rfl
  · intro hq
    rw [if_neg (by omega), if_neg (by omega), if_pos hq]
    rfl
  · intro hq
    rw [if_neg (by omega), if_neg (by omega), if_neg (by omega)]
    rfl

theorem setCavity_target_witness :
    (setCavity twoQuadsM (fun _ => 0) (fun _ => false) ⟨[1], [0]⟩).map
        (fun d => d.cavityTargetNbOfSides) = some 4 :=
  (setCavity_target twoQuadsM (fun _ => 0) (fun _ => false) ⟨[1], [0]⟩
    (by decide) (by decide) (by decide)).2.1 (Or.inl (by decide))

/-! ## Concrete fixtures: a 3×3 quad grid and a bowtie

Grid point `(x, y)` (0 ≤ x,y ≤ 3) carries the external identity `4*y + x`; the
quads are listed row by row with counter-clockwise corner order. -/

def gridQuad (x y : Nat) : Quad :=
  ⟨4 * y + x, 4 * y + x + 1, 4 * (y + 1) + x + 1, 4 * (y + 1) + x⟩

def grid3x3 : List Quad :=
  [gridQuad 0 0, gridQuad 1 0, gridQuad 2 0,
   gridQuad 0 1, gridQuad 1 1, gridQuad 2 1,
   gridQuad 0 2, gridQuad 1 2, gridQuad 2 2]

/-- The grid mesh with the interior grid point `(2,2)` (external id 10, a corner
of the central quad) flagged singular. -/
def grid3x3M : MeshHalfEdges := (createMeshHalfEdges grid3x3 [10]).getD ⟨[], [], []⟩

/-- The ring cavity holding the 8 non-central quads: its boundary half-edges are
the 4 interior ones around the hole (faces 1, 5, 7, 3) followed by the 12 outer
ones in loop order. -/
def grid3x3Cav : Cav :=
  ⟨[6, 23, 28, 13, 0, 4, 8, 9, 21, 33, 34, 30, 26, 27, 15, 3], [0, 1, 2, 3, 5, 6, 7, 8]⟩

def flipInfoJunk : FlipInfo := ⟨NO_ID, NO_ID, (NO_ID, NO_ID, NO_ID, NO_ID)⟩

/-- C1: in the closing-a-hole configuration with `rejectNewSings = true`, a flip
absorbing a quad with a singular corner is nevertheless accepted: the
singularity check of the branch compares `M.hedges[he0].vertex` four times
instead of the four quad corners, so only one corner is ever tested.  On the
ring cavity of the 3×3 grid the absorbed central quad (face 4) has the flagged
singular corner 10, the tested corner is the non-singular vertex 5, and the call
returns true — refuting the claimed rejection. -/
theorem closing_hole_misses_singularity :
    closingHoleConfig grid3x3M grid3x3Cav 0 = true ∧
    grid3x3M.hface (flipHe0 grid3x3M grid3x3Cav 0) = 4 ∧
    10 ∈ (faceCycle grid3x3M 4).map grid3x3M.vert1 ∧
    grid3x3M.isSing 10 = true ∧
    grid3x3M.isSing (grid3x3M.vert1 (flipHe0 grid3x3M grid3x3Cav 0)) = false ∧
    (growByFlip grid3x3M grid3x3Cav 0 flipInfoJunk true).map (fun r => r.ok) = some true := by
  decide

/-- C5: `vertexFaceValence` on the hand-built 3×3 grid.  Interior vertices do
report `(4, false)`, but the boundary recount walks with `opposite(next(he))`
(where the sibling walkers use `opposite(prev(he))`), so a non-corner boundary
vertex reports the number of quads between it and a grid corner instead of its
valence: internal vertex 4 (grid point `(2,0)`, 2 incident quads) reports
`(1, true)` where the claim demands `(2, true)`. -/
theorem vertexFaceValence_boundary_miscount :
    (grid3x3M.vertices.getD 4 hvertexJunk).ptr = 2 ∧
    vOnBoundaryOf grid3x3M 4 = true ∧
    incidentFaceCount grid3x3M 4 = 2 ∧
    vertexFaceValence grid3x3M 4 = (1, true) ∧
    vertexFaceValence grid3x3M 2 = (4, false) ∧
    (grid3x3M.vertices.getD 2 hvertexJunk).ptr = 5 := by
  decide

/-- C9: starting from the ring cavity, whose only flagged singularity (vertex
10, valence 4, in-cavity valence 3) is not strictly interior, the accepted
closing-a-hole flip of `closing_hole_misses_singularity` encloses it:
`markNewQuad` then raises its in-cavity valence to its total valence with
`isSingularity` set, reaching the `abort()` branch — the branch is reachable. -/
theorem markNewQuad_abort_reachable :
    (List.range 16).filter (fun v => grid3x3M.isSing v) = [10] ∧
    grid3x3M.vertices.length = 16 ∧
    gardenerValence grid3x3M 10 = 4 ∧
    valenceInCavity grid3x3M grid3x3Cav.quads 10 = 3 ∧
    (growByFlip grid3x3M grid3x3Cav 0 flipInfoJunk true).map (fun r => r.ok) = some true ∧
    (markNewQuad grid3x3M (gardenerValence grid3x3M)
      (valenceInCavity grid3x3M grid3x3Cav.quads) 4).2 = true := by
  decide

/-- Two quads sharing exactly one vertex (external id 2): a manifold-edge but
non-manifold-vertex (bowtie) configuration that `createMeshHalfEdges`
accepts. -/
def bowtie : List Quad := [⟨0, 1, 2, 3⟩, ⟨2, 4, 5, 6⟩]

def bowtieM : MeshHalfEdges := (createMeshHalfEdges bowtie []).getD ⟨[], [], []⟩

/-- C10 counterexample: at the bowtie vertex (internal id 2) with both faces in
the quad set, the vertex has 2 incident faces inside the set and face valence
2 < 24, yet `valenceInsideQuads` returns 1: the rotational walk only sees the
fan of `vertices[v].he` and undercounts at non-manifold vertices, so the
function does not return the number of incident faces of the vertex inside the set. -/
theorem valenceInsideQuads_undercounts_bowtie :
    (createMeshHalfEdges bowtie []).isSome = true ∧
    bowtieM.faces.length = 2 ∧
    incidentFaceCount bowtieM 2 = 2 ∧
    (vertexFacesList bowtieM 2).length < 24 ∧
    valenceInsideQuads bowtieM [0, 1] 2 = some 1 ∧
    valenceInsideQuads bowtieM [0, 1] 2 ≠ some (incidentFaceCount bowtieM 2) := by
  decide

theorem filter_partition_length (l : List Nat) (p : Nat → Bool) :
    (l.filter p).length + (l.filter fun x => ¬ p x).length = l.length := by
  induction l with
  | nil => rfl
  | cons a t ih =>
    by_cases hp : p a <;> simp [List.filter_cons, hp, ← ih] <;> omega

/-- C10 amended: under the precondition that the rotational face walk around
`v` visits fewer than 24 faces, the `abort()` is unreachable and
`valenceInsideQuads` / `valenceOutsideQuads` return exactly the number of
walked faces inside (resp. outside) the quad set — a partition of the walk;
when the walk reaches 24 faces both abort (after the fixed 24-entry stack
buffer has already been overrun).  At single-fan (manifold) vertex stars the
walk is the incident-face set; the bowtie counterexample shows it can be a
strict subset at non-manifold vertices. -/
theorem valenceInsideQuads_walk_spec (M : MeshHalfEdges) (quads : List Nat) (v : Nat) :
    ((vertexFacesList M v).length < 24 →
      valenceInsideQuads M quads v =
          some ((vertexFacesList M v).filter (quads.contains ·)).length ∧
        valenceOutsideQuads M quads v =
          some ((vertexFacesList M v).filter fun f => ¬ quads.contains f).length ∧
        ((vertexFacesList M v).filter (quads.contains ·)).length +
            ((vertexFacesList M v).filter fun f => ¬ quads.contains f).length =
          (vertexFacesList M v).length) ∧
    (24 ≤ (vertexFacesList M v).length →
      valenceInsideQuads M quads v = none ∧ valenceOutsideQuads M quads v = none) := by
  constructor
  · intro hlt
    refine ⟨?_, ?_, filter_partition_length _ _⟩
    · unfold valenceInsideQuads
      rw [if_neg (by omega)]
    · unfold valenceOutsideQuads
      rw [if_neg (by omega)]
  · intro hge
    constructor
    · unfold valenceInsideQuads
      rw [if_pos (by omega)]
    · unfold valenceOutsideQuads
      rw [if_pos (by omega)]

theorem valenceInsideQuads_walk_spec_witness :
    valenceInsideQuads bowtieM [0, 1] 2 =
      some ((vertexFacesList bowtieM 2).filter ([0, 1].contains ·)).length :=
  ((valenceInsideQuads_walk_spec bowtieM [0, 1] 2).1 (by decide)).1

/-! ## remeshSmallDefects: acceptance decision and splice

The iteration body of `remeshSmallDefects` from the `remeshFewQuads` call on:
the candidate replacement is evaluated against the cavity irregularity energy
and either discarded (the new vertices/elements are deleted, the surface is
untouched — `remeshFewQuads` itself does not modify the GFace, per its
documented contract) or spliced in.  Elements are identified by an id plus
their vertex list; the pointer-keyed adjacency map is an association list over
vertex ids.  The energy arithmetic is exact: every quantity is integral and the
`double` operations of the source are exact on these integers. -/

/-- A quad element of the surface container: identity plus its 4 vertices. -/
structure Elem where
  eid : Nat
  verts : List Nat
deriving DecidableEq, Repr

/-- Map `qval`: number of occurrences of vertex `v` among the corners of `quads`. -/
def qvalOf (quads : List Elem) (v : Nat) : Nat :=
  (quads.map fun e => e.verts.count v).sum

/-- Energy `irregularityEnergyOfCavity`: boundary term (squared deviation from the
ideal valence, plus a 1000-weighted defect penalty when the allowed range is a
single value that is missed) plus interior term (squared deviation from 4, plus
a 1000-weighted penalty above 5).  Vertices absent from `qval` are skipped with
an error message in the source and contribute nothing. -/
def irregularityEnergyOfCavity (bnd : List Nat) (bndIdealValence : List Int)
    (bndAllowedValenceRange : List (Int × Int)) (inside : List Nat)
    (quads : List Elem) : Int :=
  ((List.range bnd.length).map fun i =>
    let v := bnd.getD i 0
    if qvalOf quads v = 0 then 0
    else
      let val : Int := qvalOf quads v
      let ideal := bndIdealValence.getD i 0
      let rng := bndAllowedValenceRange.getD i (0, 0)
      (val - ideal) ^ 2 +
        (if rng.1 = rng.2 ∧ val ≠ rng.1 then 1000 * (val - rng.1).natAbs else 0)).sum +
  (inside.map fun v =>
    if qvalOf quads v = 0 then 0
    else
      let val : Int := qvalOf quads v
      (val - 4) ^ 2 + (if 5 < val then 1000 * (val - 5) else 0)).sum

/-- The per-patch surface state mutated by the splice: the quad container, the
vertex container and the vertex → elements adjacency map. -/
structure QMesh where
  quads : List Elem
  verts : List Nat
  adj : List (Nat × List Elem)
deriving DecidableEq, Repr

/-- Push `adj[v].push_back(e)`; `operator[]` default-constructs missing entries. -/
def adjAppend (adj : List (Nat × List Elem)) (v : Nat) (e : Elem) :
    List (Nat × List Elem) :=
  if adj.any fun kv => kv.1 = v then
    adj.map fun kv => if kv.1 = v then (kv.1, kv.2 ++ [e]) else kv
  else adj ++ [(v, [e])]

/-- Helper `addToAdjacencyList`: append `e` under each of its vertices. -/
def addToAdjacencyList (adj : List (Nat × List Elem)) (e : Elem) :
    List (Nat × List Elem) :=
  e.verts.foldl (fun a v => adjAppend a v e) adj

/-- Helper `removeElement`: drop the first occurrence of `e` from each of its
adjacency lists of its vertices, then erase it from the quad container. -/
def removeElement (st : QMesh) (e : Elem) : QMesh :=
  { st with
    adj := e.verts.foldl
      (fun a v => a.map fun kv => if kv.1 = v then (kv.1, kv.2.erase e) else kv) st.adj
    quads := st.quads.erase e }

/-- Helper `removeVertex`: erase the adjacency entry and the container entry. -/
def removeVertex (st : QMesh) (v : Nat) : QMesh :=
  { st with
    adj := st.adj.filter fun kv => kv.1 ≠ v
    verts := st.verts.erase v }

/-- The candidate replacement produced by `remeshFewQuads` together with the
cavity signature it was built from; `vsIsSurface` records `vs == SURFACE` for
the duet test. -/
structure RemeshCandidate where
  status : Int
  vsIsSurface : Bool
  bnd : List Nat
  bndIdealValence : List Int
  bndAllowedValenceRange : List (Int × Int)
  inside : List Nat
  cavQuads : List Elem
  newVertices : List Nat
  newElements : List Elem
deriving DecidableEq, Repr

/-- The explicitly-flagged duet case, source line 2366: an interior pass over a
4-vertex boundary, a 2-quad cavity and a replacement that is not 2 quads. -/
def remeshDuet (c : RemeshCandidate) : Bool :=
  c.vsIsSurface && c.bnd.length == 4 && c.cavQuads.length == 2 && c.newElements.length != 2

def remeshEnergyBefore (c : RemeshCandidate) : Int :=
  irregularityEnergyOfCavity c.bnd c.bndIdealValence c.bndAllowedValenceRange
    c.inside c.cavQuads

def remeshEnergyAfter (c : RemeshCandidate) : Int :=
  irregularityEnergyOfCavity c.bnd c.bndIdealValence c.bndAllowedValenceRange
    c.newVertices c.newElements

/-- The accepted-repair splice, in source order: push the new vertices, push the
new elements with their adjacency entries, remove the old cavity quads, remove
the strictly-interior old vertices. -/
def spliceCavity (st : QMesh) (c : RemeshCandidate) : QMesh :=
  let st1 : QMesh :=
    { st with
      verts := st.verts ++ c.newVertices
      quads := st.quads ++ c.newElements
      adj := c.newElements.foldl addToAdjacencyList st.adj }
  let st2 := c.cavQuads.foldl removeElement st1
  c.inside.foldl removeVertex st2

/-- The acceptance decision of `remeshSmallDefects` (source lines 2364-2395):
a failed pattern lookup or a non-duet candidate whose energy does not strictly
decrease leaves the state untouched; otherwise the candidate is spliced in. -/
def remeshAcceptStep (st : QMesh) (c : RemeshCandidate) : QMesh × Bool :=
  if c.status ≠ 0 then (st, false)
  else if ¬ remeshDuet c ∧ remeshEnergyBefore c ≤ remeshEnergyAfter c then (st, false)
  else (spliceCavity st c, true)

/-- C3: a non-duet replacement whose post-repair energy is not strictly smaller
is discarded with the surface state exactly as before the attempt; a duet
candidate with successful lookup is accepted regardless of energy; consequently
every accepted non-duet repair strictly decreases the cavity irregularity
energy. -/
theorem remeshAcceptStep_energy (st : QMesh) (c : RemeshCandidate) :
    (c.status = 0 → remeshDuet c = false → remeshEnergyBefore c ≤ remeshEnergyAfter c →
      remeshAcceptStep st c = (st, false)) ∧
    ((remeshAcceptStep st c).2 = true → remeshDuet c = false →
      remeshEnergyAfter c < remeshEnergyBefore c) ∧
    (c.status = 0 → remeshDuet c = true → (remeshAcceptStep st c).2 = true) := by
  refine ⟨?_, ?_, ?_⟩
  · intro hst hd he
    unfold remeshAcceptStep
    rw [if_neg (by omega), if_pos ⟨by simp [hd], he⟩]
  · intro hacc hd
    unfold remeshAcceptStep at hacc
    by_cases hst : c.status ≠ 0
    · rw [if_pos hst] at hacc
      simp at hacc
    · rw [if_neg hst] at hacc
      by_cases hrej : ¬ remeshDuet c ∧ remeshEnergyBefore c ≤ remeshEnergyAfter c
      · rw [if_pos hrej] at hacc
        simp at hacc
      · push_neg at hrej
        exact hrej (by simp [hd])
  · intro hst hd
    unfold remeshAcceptStep
    rw [if_neg (by omega), if_neg (by simp [hd])]

theorem remeshAcceptStep_energy_witness :
    remeshAcceptStep ⟨[⟨0, [0, 1, 2, 3]⟩], [0, 1, 2, 3], []⟩
        ⟨0, false, [0], [0], [(0, 0)], [], [], [], [⟨1, [0, 1, 2, 3]⟩]⟩ =
      (⟨[⟨0, [0, 1, 2, 3]⟩], [0, 1, 2, 3], []⟩, false) :=
  (remeshAcceptStep_energy ⟨[⟨0, [0, 1, 2, 3]⟩], [0, 1, 2, 3], []⟩
    ⟨0, false, [0], [0], [(0, 0)], [], [], [], [⟨1, [0, 1, 2, 3]⟩]⟩).1
    (by decide) (by decide) (by decide)

/-! ## smoothElementsWithLocalKernel: outer optimisation loop

The geometric kernel itself (Laplacian / angle-based / Winslow with `double`
arithmetic, surface projection) is floating-point and is abstracted as an
oracle `kernel iter i pts`: `some p` models a `KS_OK` return that wrote `p`
into `points[i]`, `none` models every non-OK status (which leaves `points[i]`
untouched, as in the source where `points[v]` is assigned only on the `KS_OK`
path).  Displacements are measured by an abstract `dist` (modelling the expression
`length(center - points[i])`); the loop logic proved below is independent of
the numeric values these produce, so rationals stand in for `double`.  The
`max_dx` accumulator of the source is dead (stored, never read) and omitted. -/

abbrev SPoint := ℚ × ℚ × ℚ

structure SmoothParams where
  kernel : Nat → Nat → List SPoint → Option SPoint
  dist : SPoint → SPoint → ℚ
  localAvgSize : List ℚ
  local_dx_reduction : ℚ
  global_dx_reduction : ℚ

structure SmoothIterState where
  pts : List SPoint
  run : List Bool
  sumDx : ℚ
  cnt : Nat
deriving DecidableEq

/-- Body of `for i < freeVertices.size() if running[i]`: move vertex `i` via the
kernel, accumulate its displacement, lock it when the displacement falls below
`local_dx_reduction * localAvgSize[i]` or the kernel did not return OK. -/
def smoothVertexStep (P : SmoothParams) (iter : Nat) (st : SmoothIterState)
    (i : Nat) : SmoothIterState :=
  if st.run.getD i false = false then st
  else
    match P.kernel iter i st.pts with
    | none => { st with run := st.run.set i false }
    | some newp =>
      let center := st.pts.getD i (0, 0, 0)
      let dx := P.dist center newp
      if dx < P.local_dx_reduction * P.localAvgSize.getD i 0 then
        { st with pts := st.pts.set i newp, run := st.run.set i false, sumDx := st.sumDx + dx }
      else
        { st with pts := st.pts.set i newp, sumDx := st.sumDx + dx, cnt := st.cnt + 1 }

/-- One outer iteration: sweep all free vertices in order. -/
def smoothIter (P : SmoothParams) (iter : Nat) (pts : List SPoint) (run : List Bool) :
    SmoothIterState :=
  (List.range run.length).foldl (smoothVertexStep P iter) ⟨pts, run, 0, 0⟩

/-- The outer loop (`fuel = iterMaxOuterLoop - iter`): after the first
iteration its total displacement is kept as `sum_dx0`; later iterations break
once their total displacement falls below `global_dx_reduction * sum_dx0` or
every vertex is locked. -/
def smoothRun (P : SmoothParams) : Nat → Nat → ℚ → List SPoint → List Bool →
    List SPoint × List Bool
  | 0, _, _, pts, run => (pts, run)
  | fuel + 1, iter, sumDx0, pts, run =>
    let s := smoothIter P iter pts run
    if iter = 0 then smoothRun P fuel 1 s.sumDx s.pts s.run
    else if s.sumDx < P.global_dx_reduction * sumDx0 then (s.pts, s.run)
    else if s.cnt = 0 then (s.pts, s.run)
    else smoothRun P fuel (iter + 1) sumDx0 s.pts s.run

/-- Outer entry of `smoothElementsWithLocalKernel`: optimisation loop over `nFree` free
vertices (every free vertex starts unlocked). -/
def smoothElementsWithLocalKernel (P : SmoothParams) (iterMaxOuterLoop nFree : Nat)
    (pts0 : List SPoint) : List SPoint × List Bool :=
  smoothRun P iterMaxOuterLoop 0 0 pts0 (List.replicate nFree true)

theorem getD_set_ne {α : Type} (l : List α) (j i : Nat) (a d : α) (h : i ≠ j) :
    (l.set j a).getD i d = l.getD i d := by
  unfold List.getD
  rw [List.get?_eq_getElem?, List.get?_eq_getElem?,
    List.getElem?_set_ne (fun he => h he.symm)]

theorem getD_set_self {α : Type} (l : List α) (i : Nat) (a d : α) (hi : i < l.length) :
    (l.set i a).getD i d = a := by
  unfold List.getD
  rw [List.get?_eq_getElem?, List.getElem?_set_eq_of_lt a hi]
  rfl

theorem smoothVertexStep_locked (P : SmoothParams) (iter : Nat)
    (st : SmoothIterState) (j i : Nat) (h : st.run.getD i false = false) :
    (smoothVertexStep P iter st j).pts.getD i (0, 0, 0) = st.pts.getD i (0, 0, 0) ∧
      (smoothVertexStep P iter st j).run.getD i false = false := by
  by_cases hj : st.run.getD j false = false
  · unfold smoothVertexStep
    rw [if_pos hj]
    exact ⟨rfl, h⟩
  · have hij : i ≠ j := fun he => hj (he ▸ h)
    unfold smoothVertexStep
    rw [if_neg hj]
    rcases hk : P.kernel iter j st.pts with _ | newp <;> simp only [hk]
    · exact ⟨by simp, by rw [getD_set_ne _ _ _ _ _ hij]; exact h⟩
    · by_cases hdx : P.dist (st.pts.getD j (0, 0, 0)) newp <
          P.local_dx_reduction * P.localAvgSize.getD j 0
      · rw [if_pos hdx]
        exact ⟨getD_set_ne _ _ _ _ _ hij, by rw [getD_set_ne _ _ _ _ _ hij]; exact h⟩
      · rw [if_neg hdx]
        exact ⟨getD_set_ne _ _ _ _ _ hij, h⟩

theorem smoothIter_locked (P : SmoothParams) (iter : Nat) (pts : List SPoint)
    (run : List Bool) (i : Nat) (h : run.getD i false = false) :
    (smoothIter P iter pts run).pts.getD i (0, 0, 0) = pts.getD i (0, 0, 0) ∧
      (smoothIter P iter pts run).run.getD i false = false := by
  unfold smoothIter
  have hgen : ∀ (js : List Nat) (st : SmoothIterState),
      st.run.getD i false = false →
      (js.foldl (smoothVertexStep P iter) st).pts.getD i (0, 0, 0) =
          st.pts.getD i (0, 0, 0) ∧
        (js.foldl (smoothVertexStep P iter) st).run.getD i false = false := by
    intro js
    induction js with
    | nil => exact fun st hst => ⟨rfl, hst⟩
    | cons j tl ih =>
      intro st hst
      obtain ⟨hp, hr⟩ := smoothVertexStep_locked P iter st j i hst
      obtain ⟨hp2, hr2⟩ := ih (smoothVertexStep P iter st j) hr
      exact ⟨hp2.trans hp, hr2⟩
  exact hgen (List.range run.length) ⟨pts, run, 0, 0⟩ h

theorem smoothRun_locked (P : SmoothParams) (fuel iter : Nat) (sumDx0 : ℚ)
    (pts : List SPoint) (run : List Bool) (i : Nat) (h : run.getD i false = false) :
    (smoothRun P fuel iter sumDx0 pts run).1.getD i (0, 0, 0) = pts.getD i (0, 0, 0) := by
  induction fuel generalizing iter sumDx0 pts run with
  | zero => rfl
  | succ fuel ih =>
    unfold smoothRun
    obtain ⟨hp, hr⟩ := smoothIter_locked P iter pts run i h
    by_cases h0 : iter = 0
    · rw [if_pos h0]
      rw [ih 1 _ _ _ hr, hp]
    · rw [if_neg h0]
      by_cases hglob : (smoothIter P iter pts run).sumDx < P.global_dx_reduction * sumDx0
      · rw [if_pos hglob]
        exact hp
      · rw [if_neg hglob]
        by_cases hcnt : (smoothIter P iter pts run).cnt = 0
        · rw [if_pos hcnt]
          exact hp
        · rw [if_neg hcnt]
          rw [ih (iter + 1) _ _ _ hr, hp]

/-- C8: the locking and early-stop discipline of the smoothing outer loop.
(a) A running vertex moved by the kernel whose displacement falls below
`local_dx_reduction` times its local average edge length is locked by the
sweep; (b) a locked vertex is never moved by any further iteration of the
loop; (c) at any iteration after the first, the loop stops immediately once
the total displacement of an iteration falls below `global_dx_reduction` times the
total of the first iteration.  (The function reads no clock: no wall-clock
condition exists in its loop, so the displacement test and the all-locked test
are its only early exits.) -/
theorem smoothLoop_lock_and_stop (P : SmoothParams) (iter : Nat)
    (st : SmoothIterState) (i : Nat) (newp : SPoint) (fuel : Nat) (sumDx0 : ℚ)
    (pts : List SPoint) (run : List Bool) :
    (st.run.getD i false = true → P.kernel iter i st.pts = some newp →
      P.dist (st.pts.getD i (0, 0, 0)) newp <
          P.local_dx_reduction * P.localAvgSize.getD i 0 →
      (smoothVertexStep P iter st i).run.getD i false = false ∨
        st.run.length ≤ i) ∧
    (run.getD i false = false →
      (smoothRun P fuel iter sumDx0 pts run).1.getD i (0, 0, 0) = pts.getD i (0, 0, 0)) ∧
    (iter ≠ 0 → (smoothIter P iter pts run).sumDx < P.global_dx_reduction * sumDx0 →
      smoothRun P (fuel + 1) iter sumDx0 pts run =
        ((smoothIter P iter pts run).pts, (smoothIter P iter pts run).run)) := by
  refine ⟨?_, fun h => smoothRun_locked P fuel iter sumDx0 pts run i h, ?_⟩
  · intro hrun hk hdx
    by_cases hi : i < st.run.length
    · left
      unfold smoothVertexStep
      rw [if_neg (by rw [hrun]; simp)]
      simp only [hk]
      rw [if_pos hdx]
      exact getD_set_self _ _ _ _ hi
    · exact Or.inr (by omega)
  · intro h0 hglob
    unfold smoothRun
    rw [if_neg h0, if_pos hglob]

theorem smoothLoop_lock_and_stop_witness :
    ((smoothVertexStep
        ⟨fun _ _ _ => some (0, 0, 0), fun _ _ => 0, [1], 1, 1⟩ 1
        ⟨[(1, 1, 1)], [true], 0, 0⟩ 0).run.getD 0 false = false ∨
      (SmoothIterState.mk [(1, 1, 1)] [true] 0 0).run.length ≤ 0) ∧
    (smoothRun ⟨fun _ _ _ => some (0, 0, 0), fun _ _ => 0, [1], 1, 1⟩ 3 1 1
        [(1, 1, 1)] [false]).1.getD 0 (0, 0, 0) = (1, 1, 1) := by
  have h1 := (smoothLoop_lock_and_stop
    ⟨fun _ _ _ => some (0, 0, 0), fun _ _ => 0, [1], 1, 1⟩ 1
    ⟨[(1, 1, 1)], [true], 0, 0⟩ 0 (0, 0, 0) 3 1 [(1, 1, 1)] [false]).1
    (by decide) rfl (by norm_num)
  have h2 := (smoothLoop_lock_and_stop
    ⟨fun _ _ _ => some (0, 0, 0), fun _ _ => 0, [1], 1, 1⟩ 1
    ⟨[(1, 1, 1)], [true], 0, 0⟩ 0 (0, 0, 0) 3 1 [(1, 1, 1)] [false]).2.1
    (by decide)
  exact ⟨h1, h2⟩

end QQS
